import Mathlib

/-!
Verification development for the Jira exception-submitter service
(`exceptionservice/server.py`).

The Python source is shallowly embedded below.  Strings are modelled as
Lean `String` / `List Char`; Python floats (the difflib similarity
ratios) are modelled as exact rationals, which agrees with the float
computation for the small match counts that occur here; a raised Python
exception (`IndexError`, the service's own `InternalError`) is modelled
with `Option` / `Except PyErr`; `datetime.now()` is passed in as an
explicit `now : String` argument.  `difflib.SequenceMatcher` (junk-aware
`find_longest_match`, `get_matching_blocks`, `ratio`,
`real_quick_ratio`, including the autojunk "popular element" rule) is
embedded from the CPython 3.11 source, since `determine_if_duplicate`
calls it with the junk predicate `lambda x: x == ' ' or x == '\n' or
x == '\t'`.
-/

set_option maxRecDepth 4000

/-! ## difflib.SequenceMatcher model -/

/-- Junk predicate passed to SequenceMatcher in `determine_if_duplicate`:
whitespace characters are junk. -/
def pyIsJunk (c : Char) : Bool := c = ' ' || c = '\n' || c = '\t'

/-- Number of occurrences of a character in a list. -/
def countOcc (b : List Char) (c : Char) : Nat := (b.filter (fun d => d = c)).length

/-- The autojunk rule of `SequenceMatcher.__chain_b`: when the second
sequence has at least 200 elements, an element occurring more than
`len(b) // 100 + 1` times is "popular" and removed from `b2j`. -/
def isPopularChar (b : List Char) (c : Char) : Bool :=
  if 200 ≤ b.length then decide (b.length / 100 + 1 < countOcc b c) else false

/-- A character can anchor a match in `b` (it has a `b2j` entry):
neither junk nor popular. -/
def anchoredChar (b : List Char) (c : Char) : Bool :=
  !pyIsJunk c && !isPopularChar b c

/-- Inner-loop condition of `find_longest_match`: position `j` is visited
for row `i` iff `j` lies in `[blo, bhi)` and `b[j] = a[i]` with that
character anchored (difflib iterates `b2j.get(a[i])` filtered to the
range, which is the same set of `j`). -/
def cellCond (a b : List Char) (blo bhi i j : Nat) : Bool :=
  decide (blo ≤ j) && decide (j < bhi) &&
  decide (b.getD j ' ' = a.getD i ' ') && anchoredChar b (a.getD i ' ')

/-- The running `(besti, bestj, bestsize)` triple of `find_longest_match`. -/
structure FlmBest where
  bi : Nat
  bj : Nat
  bk : Nat
deriving Repr, DecidableEq

/-- One inner-loop step of `find_longest_match`: at cell `(i, j)` compute
`k = j2len.get(j-1, 0) + 1` from the previous row `f` and update the best
triple if `k > bestsize`. -/
def stepCell (a b : List Char) (blo bhi i : Nat) (f : Nat → Nat) (j : Nat)
    (bst : FlmBest) : FlmBest :=
  if cellCond a b blo bhi i j then
    let k := (if j = 0 then 0 else f (j - 1)) + 1
    if bst.bk < k then ⟨i + 1 - k, j + 1 - k, k⟩ else bst
  else bst

/-- The `newj2len` dictionary produced by row `i` from the previous row's
dictionary `f` (as a total function, zero outside the written keys). -/
def rowFn (a b : List Char) (blo bhi i : Nat) (f : Nat → Nat) : Nat → Nat :=
  fun j => if cellCond a b blo bhi i j then (if j = 0 then 0 else f (j - 1)) + 1 else 0

/-- Run the best-update of row `i` over `cnt` cells starting at column `j`
(ascending, as difflib's `for j in b2j.get(a[i])` does; cells not
satisfying `cellCond` are skipped). -/
def rowBestGo (a b : List Char) (blo bhi i : Nat) (f : Nat → Nat) :
    Nat → Nat → FlmBest → FlmBest
  | _, 0, bst => bst
  | j, c + 1, bst => rowBestGo a b blo bhi i f (j + 1) c (stepCell a b blo bhi i f j bst)

/-- Best-update of a full row `i`. -/
def rowBest (a b : List Char) (blo bhi i : Nat) (f : Nat → Nat) (bst : FlmBest) :
    FlmBest :=
  rowBestGo a b blo bhi i f blo (bhi - blo) bst

/-- `j2len` after processing `t` rows (rows `alo, alo+1, …, alo+t-1`). -/
def flmF (a b : List Char) (alo blo bhi : Nat) : Nat → (Nat → Nat)
  | 0 => fun _ => 0
  | t + 1 => rowFn a b blo bhi (alo + t) (flmF a b alo blo bhi t)

/-- Best triple after processing `t` rows of the main loop. -/
def flmBestT (a b : List Char) (alo blo bhi : Nat) : Nat → FlmBest
  | 0 => ⟨alo, blo, 0⟩
  | t + 1 =>
    rowBest a b blo bhi (alo + t) (flmF a b alo blo bhi t) (flmBestT a b alo blo bhi t)

/-- One of the `while` extension loops of `find_longest_match`, extending
the block to the left while the guard `p` holds on the neighbouring pair
(`while besti > alo and bestj > blo and p (besti-1) (bestj-1)`).  The
recursion is structural on `bi`, which strictly decreases. -/
def growLeft (p : Nat → Nat → Bool) (alo blo : Nat) : Nat → Nat → Nat → FlmBest
  | 0, bj, bk => ⟨0, bj, bk⟩
  | bi + 1, bj, bk =>
    if alo < bi + 1 ∧ blo < bj ∧ p bi (bj - 1) = true then
      growLeft p alo blo bi (bj - 1) (bk + 1)
    else ⟨bi + 1, bj, bk⟩

/-- One of the `while` extension loops of `find_longest_match`, extending
the block size to the right while the guard `p` holds
(`while besti+bestsize < ahi and bestj+bestsize < bhi and p ...`).  The
loop runs at most `ahi - (bi + bk)` times, which the fuel argument of
`growRightF` tracks; when the fuel is zero the guard is false anyway. -/
def growRightF (p : Nat → Nat → Bool) (ahi bhi bi bj : Nat) : Nat → Nat → Nat
  | 0, bk => bk
  | fuel + 1, bk =>
    if bi + bk < ahi ∧ bj + bk < bhi ∧ p (bi + bk) (bj + bk) = true then
      growRightF p ahi bhi bi bj fuel (bk + 1)
    else bk

/-- The right-extension loop of `find_longest_match`. -/
def growRight (p : Nat → Nat → Bool) (ahi bhi : Nat) (bi bj : Nat) (bk : Nat) : Nat :=
  growRightF p ahi bhi bi bj (ahi - (bi + bk)) bk

/-- Guard of the non-junk extension loops: `not isbjunk(b[y]) and a[x] == b[y]`
(`isbjunk` on an element of `b` is just the junk predicate). -/
def extNonjunk (a b : List Char) : Nat → Nat → Bool :=
  fun x y => !pyIsJunk (b.getD y ' ') && decide (a.getD x ' ' = b.getD y ' ')

/-- Guard of the junk extension loops: `isbjunk(b[y]) and a[x] == b[y]`. -/
def extJunk (a b : List Char) : Nat → Nat → Bool :=
  fun x y => pyIsJunk (b.getD y ' ') && decide (a.getD x ' ' = b.getD y ' ')

/-- `SequenceMatcher.find_longest_match(alo, ahi, blo, bhi)`: main loop,
then the four extension loops in difflib's order (non-junk left, non-junk
right, junk left, junk right). -/
def findLongestMatch (a b : List Char) (alo ahi blo bhi : Nat) : FlmBest :=
  let b0 := flmBestT a b alo blo bhi (ahi - alo)
  let b1 := growLeft (extNonjunk a b) alo blo b0.bi b0.bj b0.bk
  let k2 := growRight (extNonjunk a b) ahi bhi b1.bi b1.bj b1.bk
  let b3 := growLeft (extJunk a b) alo blo b1.bi b1.bj k2
  let k4 := growRight (extJunk a b) ahi bhi b3.bi b3.bj b3.bk
  ⟨b3.bi, b3.bj, k4⟩

/-- Total size of the matching blocks found by `get_matching_blocks`'s
divide-and-conquer over `find_longest_match` (difflib's queue-based
traversal collects exactly the blocks of this recursion, and `ratio` only
uses the sum of their sizes).  `fuel` bounds the recursion depth; every
level shrinks the `a`-range by at least one, so `fuel = a.length`
suffices at the top. -/
def matchedSizeAux (a b : List Char) : Nat → Nat → Nat → Nat → Nat → Nat
  | 0, _, _, _, _ => 0
  | fuel + 1, alo, ahi, blo, bhi =>
    let m := findLongestMatch a b alo ahi blo bhi
    if m.bk = 0 then 0
    else
      (if alo < m.bi ∧ blo < m.bj then matchedSizeAux a b fuel alo m.bi blo m.bj else 0) +
      m.bk +
      (if m.bi + m.bk < ahi ∧ m.bj + m.bk < bhi then
        matchedSizeAux a b fuel (m.bi + m.bk) ahi (m.bj + m.bk) bhi else 0)

/-- Total number of matched elements between `a` and `b`. -/
def matchedSize (a b : List Char) : Nat :=
  matchedSizeAux a b a.length 0 a.length 0 b.length

/-- When a list is compared with itself, the length of the anchored
diagonal run ending at column `j` of the main-loop value matrix: it
grows by one at every column whose diagonal cell is live and resets at
junk, popular or out-of-range columns.  Used to analyse the self-match
case. -/
def diagRun (a : List Char) (blo bhi : Nat) : Nat → Nat
  | 0 => if cellCond a a blo bhi 0 0 then 1 else 0
  | j + 1 => if cellCond a a blo bhi (j + 1) (j + 1) then diagRun a blo bhi j + 1 else 0

/-- Maximum diagonal run over the first `t` rows `alo, …, alo + t - 1`
of the self-comparison. -/
def maxDiag (a : List Char) (alo bhi : Nat) : Nat → Nat
  | 0 => 0
  | t + 1 => max (maxDiag a alo bhi t) (diagRun a alo bhi (alo + t))

/-- `difflib._calculate_ratio`, with floats replaced by rationals. -/
def calcRatioQ (mtc length : Nat) : ℚ :=
  if length = 0 then 1 else mkRat (2 * mtc) length

/-- `SequenceMatcher.ratio()`. -/
def seqRatioQ (a b : List Char) : ℚ := calcRatioQ (matchedSize a b) (a.length + b.length)

/-- `SequenceMatcher.real_quick_ratio()`. -/
def realQuickQ (a b : List Char) : ℚ :=
  calcRatioQ (min a.length b.length) (a.length + b.length)

/-! ## Regular expressions of the service

`REGEX_CAUSED_BY = r'\W*caused\W+by'` and
`REGEX_COUNT = r'.*count:\s+(\d+)'`, both `re.IGNORECASE`, both used via
`.match` (anchored at the start).  `\W`, `\s`, `\d` are modelled with
their ASCII meanings, which cover the service's data. -/

/-- Python's `\w` (ASCII part): letters, digits, underscore. -/
def isWordChar (c : Char) : Bool := c.isAlphanum || c = '_'

/-- Python's `\s` (ASCII part). -/
def pyIsWs (c : Char) : Bool :=
  c = ' ' || c = '\t' || c = '\n' || c = '\r' || c = '\x0b' || c = '\x0c'

/-- Case-insensitively strip `pat` from the front of `l`, returning the
rest on success. -/
def dropCi (pat : List Char) (l : List Char) : Option (List Char) :=
  match pat, l with
  | [], rest => some rest
  | _ :: _, [] => none
  | p :: ps, c :: cs => if p.toLower = c.toLower then dropCi ps cs else none

/-- `REGEX_CAUSED_BY.match(line)`:  `\W*` must be the maximal leading
non-word run (the next pattern character is a word character), then
`caused` case-insensitively, then a non-empty maximal non-word run, then
`by` case-insensitively, then anything. -/
def causedByMatch (l : List Char) : Bool :=
  match dropCi "caused".data (l.dropWhile (fun c => !isWordChar c)) with
  | none => false
  | some l2 =>
    if l2.takeWhile (fun c => !isWordChar c) = [] then false
    else (dropCi "by".data (l2.dropWhile (fun c => !isWordChar c))).isSome

/-- Numeric value of a digit string, as Python's `int` computes it. -/
def digitsVal (ds : List Char) : Nat :=
  ds.foldl (fun n c => n * 10 + (c.toNat - '0'.toNat)) 0

/-- Try `count:\s+(\d+)` (case-insensitive) at the start of `l`, giving
the captured number.  `\s+` is forced to the maximal whitespace run
(backtracking it would leave a whitespace where a digit is required) and
`(\d+)` is the maximal digit run. -/
def tryCountTail (l : List Char) : Option Nat :=
  match dropCi "count:".data l with
  | none => none
  | some l1 =>
    if l1.takeWhile pyIsWs = [] then none
    else
      let ds := (l1.dropWhile pyIsWs).takeWhile Char.isDigit
      if ds = [] then none
      else some (digitsVal ds)

/-- Backtracking search for `.*count:\s+(\d+)`: the greedy `.*` tries the
longest prefix first, so the match starting at the largest feasible
position wins. -/
def countSearch (s : List Char) : Nat → Option Nat
  | 0 => tryCountTail s
  | p + 1 =>
    match tryCountTail (s.drop (p + 1)) with
    | some v => some v
    | none => countSearch s p

/-- `REGEX_COUNT.match(s)` and its captured group as a number.  `.` does
not match a newline, so the starting position of `count:` is bounded by
the first newline of `s`. -/
def countCapture (s : List Char) : Option Nat :=
  countSearch s (s.findIdx (fun c => c = '\n'))

/-! ## str.splitlines and str.partition -/

/-- Python line-break characters recognised by `str.splitlines`. -/
def pyLineBreak (c : Char) : Bool :=
  c = '\n' || c = '\r' || c = '\x0b' || c = '\x0c' ||
  c = '\x1c' || c = '\x1d' || c = '\x1e' || c = '\x85' ||
  c = '\u2028' || c = '\u2029'

/-- Worker for `str.splitlines`: `acc` is the current line, reversed. -/
def splitlinesGo (acc : List Char) : List Char → List (List Char)
  | [] => if acc = [] then [] else [acc.reverse]
  | '\r' :: '\n' :: rest => acc.reverse :: splitlinesGo [] rest
  | c :: rest =>
    if pyLineBreak c then acc.reverse :: splitlinesGo [] rest
    else splitlinesGo (c :: acc) rest

/-- `str.splitlines()` (no trailing empty line for a trailing break). -/
def splitlinesPy (l : List Char) : List (List Char) := splitlinesGo [] l

/-- First component of `str.partition(':')`: everything before the first
colon, or the whole string when there is none. -/
def partitionColonFst (l : List Char) : List Char := l.takeWhile (fun c => c ≠ ':')

/-! ## The service functions (`exceptionservice/server.py`) -/

/-- Python exceptions that the modelled code can raise.  The code itself
only raises `indexError` (out-of-range list indexing) and
`internalError` (its `InternalError`, carrying the offending HTTP
status).  `invalidReport` is the spec's error-taxonomy name for boundary
validation of malformed reports; the code never produces it, it is
declared here so that the corresponding claim can be stated. -/
inductive PyErr where
  | indexError
  | invalidReport
  | internalError (status : Nat)
deriving Repr, DecidableEq

/-- One element of a frame's `stacktrace` array. -/
structure StackLine where
  className : String
  methodName : String
  fileName : String
  lineNumber : Int
  nativeMethod : Bool
deriving Repr, DecidableEq

/-- One element of the report's `stacktrace` array: a message plus stack
lines. -/
structure CausalFrame where
  message : String
  stacktrace : List StackLine
deriving Repr, DecidableEq

/-- The inbound JSON report, reduced to the fields the engine reads. -/
structure ExceptionReport where
  stacktrace : List CausalFrame
deriving Repr, DecidableEq

/-- A Jira issue as consumed by `determine_if_duplicate`:
`issue['key']`, `issue['fields']['status']['name']`,
`issue['fields']['environment']`, `issue['fields']['description']`. -/
structure JiraIssue where
  key : String
  statusName : String
  environment : Option String
  description : String
deriving Repr, DecidableEq

/-- `get_summary_from_message`: `stacks[len(stacks) - 1]['message']`;
indexing an empty list raises `IndexError`. -/
def getSummaryFromMessage (r : ExceptionReport) : Except PyErr String :=
  match r.stacktrace.getLast? with
  | none => .error .indexError
  | some f => .ok f.message

/-- The `'\tat {}.{}({}:{})\n'` line written for a non-native stack line. -/
def stackLineStr (l : StackLine) : String :=
  "\tat " ++ l.className ++ "." ++ l.methodName ++ "(" ++ l.fileName ++ ":" ++
    toString l.lineNumber ++ ")\n"

/-- `get_stacktrace_from_message`: the nested write loop over frames and
their non-native lines, as a fold over the output string. -/
def getStacktraceFromMessage (r : ExceptionReport) : String :=
  r.stacktrace.foldl (fun acc f =>
    f.stacktrace.foldl (fun acc2 l => if l.nativeMethod then acc2 else acc2 ++ stackLineStr l)
      (acc ++ "Caused by: " ++ f.message ++ "\n")) ""

/-- Worker for `str.split(sep)`: left-to-right, non-overlapping; `acc` is
the current block, reversed.  One character is consumed per step, so fuel
equal to the length of the input always suffices; the fuel-exhausted arm
is unreachable for the wrapper below. -/
def splitOnGo (sep : List Char) : Nat → List Char → List Char → List (List Char)
  | _, acc, [] => [acc.reverse]
  | 0, acc, l => [acc.reverse ++ l]
  | fuel + 1, acc, c :: cs =>
    if (c :: cs).take sep.length = sep then
      acc.reverse :: splitOnGo sep fuel [] ((c :: cs).drop sep.length)
    else splitOnGo sep fuel (c :: acc) cs

/-- Python's `str.split(sep)` for a non-empty separator. -/
def pySplitOn (sep : List Char) (l : List Char) : List (List Char) :=
  if sep = [] then [l] else splitOnGo sep l.length [] l

/-- `get_stacktrace_from_issue`: split the description on the literal
`{noformat}` and return the second block when there are at least three
blocks, else the empty string. -/
def getStacktraceFromIssue (issue : JiraIssue) : String :=
  let blocks := pySplitOn "{noformat}".data issue.description.data
  if 3 ≤ blocks.length then String.mk (blocks.getD 1 []) else ""

/-- `first_line_caused_by_from_printed_stacktrace`: index (`+1`) of the
last line matching `REGEX_CAUSED_BY`, with `-1 + 1 = 0` when none does. -/
def causedSuccIdx (lines : List (List Char)) : Nat :=
  match (List.range lines.length).foldl
      (fun acc i => if causedByMatch (lines.getD i []) then some i else acc) none with
  | some i => i + 1
  | none => 0

/-- `first_line_caused_by_from_printed_stacktrace`: `none` models the
`IndexError` raised by `lines[loc + 1]` when that index is out of range
(empty text, or the last line is itself a caused-by line). -/
def firstLineCausedBy (s : String) : Option String :=
  let lines := splitlinesPy s.data
  match lines.get? (causedSuccIdx lines) with
  | none => none
  | some l => some (String.mk (partitionColonFst l))

/-- `matches_exception_throw_location`. -/
def matchesThrowLocation (x y : String) : Option Bool :=
  match firstLineCausedBy x, firstLineCausedBy y with
  | some u, some v => some (decide (u = v))
  | _, _ => none

/-- `match_ratio = s.ratio() if s.real_quick_ratio() > 0.6 else 0`. -/
def gatedRatioQ (x y : String) : ℚ :=
  if mkRat 3 5 < realQuickQ x.data y.data then seqRatioQ x.data y.data else 0

/-- The per-candidate similarity test in `determine_if_duplicate`'s loop:
`match_ratio > 0.95 and matches_exception_throw_location(...)` with
Python's short-circuit `and`. -/
def matchPair (x y : String) : Option Bool :=
  if mkRat 19 20 < gatedRatioQ x y then matchesThrowLocation x y
  else some false

/-- The information returned for the first matching candidate:
`issue['key']`, `issue['fields']['status']['name']`,
`issue['fields']['environment']`. -/
structure DupInfo where
  key : String
  statusName : String
  environment : Option String
deriving Repr, DecidableEq

/-- The candidate scan of `determine_if_duplicate`: first candidate whose
similarity test passes wins; a raised `IndexError` from the
throw-location extraction propagates. -/
def scanIssues (newTrace : String) : List JiraIssue → Except PyErr (Option DupInfo)
  | [] => .ok none
  | issue :: rest =>
    match matchPair newTrace (getStacktraceFromIssue issue) with
    | none => .error .indexError
    | some true => .ok (some ⟨issue.key, issue.statusName, issue.environment⟩)
    | some false => scanIssues newTrace rest

/-- `determine_if_duplicate`, with the candidate retrieval abstracted to
a function `issuesFor` from the summary to the retrieved issue list
(retrieval happens after the summary is extracted, so an empty report
fails before `issuesFor` is consulted). -/
def determineIfDuplicate (issuesFor : String → List JiraIssue) (r : ExceptionReport) :
    Except PyErr (Option DupInfo) :=
  match getSummaryFromMessage r with
  | .error e => .error e
  | .ok summary => scanIssues (getStacktraceFromMessage r) (issuesFor summary)

/-- `calculate_issue_occurrence_count`, with `datetime.now()` passed in
as `now`. -/
def calculateIssueOccurrenceCount (existing : Option String) (now : String) : String :=
  let count :=
    match existing with
    | none => 1
    | some s =>
      if 0 < s.length then
        match countCapture s.data with
        | some v => v + 1
        | none => 1
      else 1
  "Count: " ++ toString count ++ "\nLast: " ++ now

/-- One page of the Jira search contract: HTTP status, `maxResults`,
`total` and `issues`. -/
structure SearchResp where
  status : Nat
  maxResults : Nat
  total : Nat
  issues : List JiraIssue
deriving Repr, DecidableEq

/-- `find_existing_jira_issues`: fetch the page at `startAt`; on a
non-200 status raise `InternalError`; if `total > startAt + maxResults`
recursively fetch from `startAt + maxResults` and return
`issue_list + resp.json()['issues']` (recursive result first).  The
Python recursion has no termination guard, so the model carries `fuel`;
`none` means the recursion did not finish within `fuel` calls. -/
def findExistingJiraIssues (page : Nat → SearchResp) :
    Nat → Nat → Option (Except PyErr (List JiraIssue))
  | 0, _ => none
  | fuel + 1, startAt =>
    let r := page startAt
    if r.status ≠ 200 then some (.error (.internalError r.status))
    else if startAt + r.maxResults < r.total then
      match findExistingJiraIssues page fuel (startAt + r.maxResults) with
      | none => none
      | some (.error e) => some (.error e)
      | some (.ok rest) => some (.ok (rest ++ r.issues))
    else some (.ok r.issues)

/-- A well-behaved tracker over a fixed master list of matching issues:
every page request succeeds, reports the true total and a constant page
size `m`, and serves the records at offsets `[o, o + m)`. -/
def pagedTracker (master : List JiraIssue) (m : Nat) : Nat → SearchResp :=
  fun o => ⟨200, m, master.length, (master.drop o).take m⟩

/-- The ascending chunks (pages) of a list, `m` elements each. -/
def listChunks {α : Type} (m : Nat) : List α → List (List α)
  | [] => []
  | x :: xs =>
    if h : m = 0 then []
    else (x :: xs).take m :: listChunks m ((x :: xs).drop m)
termination_by l => l.length
decreasing_by
  simp_wf
  omega

/-! ## Spec-side definitions

Definitions that follow the specification's wording, to be compared with
the embedded code. -/

/-- The spec's per-frame output format (section 3 of the spec): a
`Caused by:` line followed by one `\tat` line per non-native stack line,
native lines omitted. -/
def specFrameStr (f : CausalFrame) : String :=
  "Caused by: " ++ f.message ++ "\n" ++
    String.join ((f.stacktrace.filter (fun l => !l.nativeMethod)).map stackLineStr)

/-- The spec's formatter output: the frame blocks joined in the report's
original order. -/
def specFormatted (r : ExceptionReport) : String :=
  String.join (r.stacktrace.map specFrameStr)

/-- The spec's ungated similarity decision: accept iff the exact ratio
exceeds 0.95 and the throw locations agree, with no quick-ratio
pre-filter. -/
def specMatchUngated (x y : String) : Option Bool :=
  if mkRat 19 20 < seqRatioQ x.data y.data then matchesThrowLocation x y
  else some false

/-- A decomposition witnessing that `s` matches
`.*count:\s+(\d+)` (case-insensitively, anchored at the start) with the
digit group `ds` of value `n`: a newline-free prefix, `count:` up to
case, a non-empty whitespace run, a non-empty digit run, and an
arbitrary remainder. -/
def IsCountDecomp (s : List Char) (n : Nat) : Prop :=
  ∃ pre mid ws ds rest : List Char,
    s = pre ++ mid ++ ws ++ ds ++ rest ∧
    (∀ c ∈ pre, c ≠ '\n') ∧
    mid.map Char.toLower = "count:".data ∧
    ws ≠ [] ∧ (∀ c ∈ ws, pyIsWs c = true) ∧
    ds ≠ [] ∧ (∀ c ∈ ds, c.isDigit = true) ∧ digitsVal ds = n

/-! ## Concrete fixtures used by witnesses and counterexamples -/

/-- A first concrete issue. -/
def issueA : JiraIssue := ⟨"HAM-1", "Open", none, ""⟩

/-- A second concrete issue, distinct from `issueA`. -/
def issueB : JiraIssue := ⟨"HAM-2", "Closed", some "Count: 4\nLast: t", ""⟩

/-- A printed stacktrace whose throw-location extraction succeeds. -/
def goodTrace : String := "Caused by: x\n\tat a.b(c:1)\n"

/-- An issue whose description embeds `goodTrace` between `noformat`
markers. -/
def issueHit : JiraIssue :=
  ⟨"HAM-7", "Resolved", some "Count: 2\nLast: t",
    "s\n\n{noformat}" ++ goodTrace ++ "{noformat}"⟩

/-- A report with one causal frame and no stack lines: its printed form
is a single `Caused by:` line, on which the throw-location extraction
raises `IndexError`. -/
def reportHeaderOnly : ExceptionReport := ⟨[⟨"x", []⟩]⟩

/-- A two-frame report with a native stack line, used to exercise the
formatter. -/
def reportTwoFrames : ExceptionReport :=
  ⟨[⟨"outer", [⟨"a.B", "m", "B.java", 3, false⟩, ⟨"j.N", "n", "N.java", 7, true⟩]⟩,
    ⟨"root", [⟨"c.D", "p", "D.java", 11, false⟩]⟩]⟩

/-! ## General lemmas -/

theorem strFoldlAppend (xs : List String) (acc : String) :
    xs.foldl (fun r s => r ++ s) acc = acc ++ String.join xs := by
  induction xs generalizing acc with
  | nil => simp [String.join]
  | cons x xs ih =>
    show xs.foldl (fun r s => r ++ s) (acc ++ x) = acc ++ String.join (x :: xs)
    have hx : String.join (x :: xs) = x ++ String.join xs := by
      show xs.foldl (fun r s => r ++ s) ("" ++ x) = x ++ String.join xs
      rw [ih]
      simp
    rw [ih, hx, String.append_assoc]

theorem strJoinCons (x : String) (xs : List String) :
    String.join (x :: xs) = x ++ String.join xs := by
  show xs.foldl (fun r s => r ++ s) ("" ++ x) = x ++ String.join xs
  rw [strFoldlAppend]
  simp

/-! ## Claim C4 -/

/-- Claim C4, amended: a report whose causal-frame list is empty makes
the engine fail before any candidate retrieval, but with the unhandled
`IndexError` of `stacks[len(stacks) - 1]`, not with a dedicated
`InvalidReport` validation error.  The failure is independent of the
retrieval function, which is never consulted. -/
theorem c4_empty_report_index_error
    (issuesFor : String → List JiraIssue) (r : ExceptionReport)
    (h : r.stacktrace = []) :
    determineIfDuplicate issuesFor r = .error .indexError := by
  unfold determineIfDuplicate getSummaryFromMessage
  rw [h]
  rfl

/-- Claim C4, counterexample to the claim as stated: on the empty report
the engine's error is the index error, which is not the spec's
`InvalidReport`. -/
theorem c4_counterexample :
    determineIfDuplicate (fun _ => [issueA]) ⟨[]⟩ = .error .indexError ∧
    PyErr.indexError ≠ PyErr.invalidReport := by
  exact ⟨rfl, by decide⟩

/-- Witness for `c4_empty_report_index_error` at a concrete report and
retrieval function. -/
theorem c4_witness :
    (⟨[]⟩ : ExceptionReport).stacktrace = [] ∧
    determineIfDuplicate (fun _ => [issueB]) ⟨[]⟩ = .error .indexError :=
  ⟨rfl, c4_empty_report_index_error (fun _ => [issueB]) ⟨[]⟩ rfl⟩

/-! ## Claim C5 -/

/-- Claim C5: the candidate scan returns the key, status name and
environment of the first candidate whose similarity test passes, and the
candidates after it do not influence the result; when no candidate
passes, the scan reports no duplicate. -/
theorem scanIssuesCons (t : String) (i : JiraIssue) (rest : List JiraIssue) :
    scanIssues t (i :: rest) =
      match matchPair t (getStacktraceFromIssue i) with
      | none => .error .indexError
      | some true => .ok (some ⟨i.key, i.statusName, i.environment⟩)
      | some false => scanIssues t rest := rfl

theorem c5_first_match_wins :
    (∀ (t : String) (pre post : List JiraIssue) (hit : JiraIssue),
      (∀ i ∈ pre, matchPair t (getStacktraceFromIssue i) = some false) →
      matchPair t (getStacktraceFromIssue hit) = some true →
      scanIssues t (pre ++ hit :: post) =
        .ok (some ⟨hit.key, hit.statusName, hit.environment⟩)) ∧
    (∀ (t : String) (issues : List JiraIssue),
      (∀ i ∈ issues, matchPair t (getStacktraceFromIssue i) = some false) →
      scanIssues t issues = .ok none) := by
  constructor
  · intro t pre post hit hpre hhit
    induction pre with
    | nil => rw [List.nil_append, scanIssuesCons, hhit]
    | cons x xs ih =>
      have hx := hpre x (by simp)
      rw [List.cons_append, scanIssuesCons, hx]
      exact ih fun i hi => hpre i (List.mem_cons_of_mem x hi)
  · intro t issues h
    induction issues with
    | nil => rfl
    | cons x xs ih =>
      have hx := h x (by simp)
      rw [scanIssuesCons, hx]
      exact ih fun i hi => h i (List.mem_cons_of_mem x hi)

set_option maxHeartbeats 2000000 in
/-- Witness for `c5_first_match_wins`: a non-matching candidate, then a
matching one, then a candidate after the match, with the matching
candidate's data returned. -/
theorem c5_witness :
    (∀ i ∈ [issueA], matchPair goodTrace (getStacktraceFromIssue i) = some false) ∧
    matchPair goodTrace (getStacktraceFromIssue issueHit) = some true ∧
    scanIssues goodTrace ([issueA] ++ issueHit :: [issueB]) =
      .ok (some ⟨"HAM-7", "Resolved", some "Count: 2\nLast: t"⟩) := by
  refine ⟨?_, ?_, ?_⟩
  · intro i hi
    simp only [List.mem_singleton] at hi
    subst hi
    decide
  · decide
  · exact c5_first_match_wins.1 goodTrace [issueA] [issueB] issueHit
      (by intro i hi; simp only [List.mem_singleton] at hi; subst hi; decide)
      (by decide)

/-! ## Claim C9 -/

theorem innerFoldFormat (ls : List StackLine) (acc : String) :
    ls.foldl (fun acc2 l => if l.nativeMethod then acc2 else acc2 ++ stackLineStr l) acc =
      acc ++ String.join ((ls.filter (fun l => !l.nativeMethod)).map stackLineStr) := by
  induction ls generalizing acc with
  | nil => simp [String.join]
  | cons x xs ih =>
    by_cases hx : x.nativeMethod
    · rw [List.foldl_cons, if_pos hx, List.filter_cons, if_neg (by simp [hx])]
      exact ih acc
    · rw [List.foldl_cons, if_neg hx, List.filter_cons, if_pos (by simp [hx]),
        List.map_cons, strJoinCons, ih, String.append_assoc]

theorem outerFoldFormat (fs : List CausalFrame) (acc : String) :
    fs.foldl (fun acc f =>
        f.stacktrace.foldl
          (fun acc2 l => if l.nativeMethod then acc2 else acc2 ++ stackLineStr l)
          (acc ++ "Caused by: " ++ f.message ++ "\n")) acc =
      acc ++ String.join (fs.map specFrameStr) := by
  induction fs generalizing acc with
  | nil => simp [String.join]
  | cons f fs ih =>
    simp only [List.foldl_cons, List.map_cons]
    rw [innerFoldFormat, ih, strJoinCons, specFrameStr]
    simp [String.append_assoc]

/-- Claim C9: for a report with at least one causal frame the formatter
emits, per frame in order, the `Caused by:` line followed by one `\tat`
line per non-native stack line, native lines omitted (the spec-side
format `specFormatted`). -/
theorem c9_formatter (r : ExceptionReport) (h : r.stacktrace ≠ []) :
    getStacktraceFromMessage r = specFormatted r := by
  unfold getStacktraceFromMessage specFormatted
  rw [outerFoldFormat]
  simp

/-- Witness for `c9_formatter` on a two-frame report with a native line. -/
theorem c9_witness :
    reportTwoFrames.stacktrace ≠ [] ∧
    getStacktraceFromMessage reportTwoFrames = specFormatted reportTwoFrames :=
  ⟨by decide, c9_formatter reportTwoFrames (by decide)⟩

/-! ## Claim C1 -/

theorem joinReversePerm {α : Type} (L : List (List α)) : L.reverse.flatten.Perm L.flatten := by
  induction L with
  | nil => simp
  | cons x L ih =>
    simp only [List.reverse_cons, List.flatten_append, List.flatten_cons]
    have h1 : (L.reverse.flatten ++ [x].flatten).Perm ([x].flatten ++ L.reverse.flatten) :=
      List.perm_append_comm
    have h2 : ([x].flatten ++ L.reverse.flatten).Perm ([x].flatten ++ L.flatten) := ih.append_left _
    have h3 := h1.trans h2
    simpa using h3

theorem listChunksJoin {α : Type} (m : Nat) (hm : 0 < m) :
    ∀ (n : Nat) (l : List α), l.length ≤ n → (listChunks m l).flatten = l := by
  intro n
  induction n with
  | zero =>
    intro l hl
    have : l = [] := List.length_eq_zero.mp (Nat.le_zero.mp hl)
    subst this
    simp [listChunks]
  | succ n ih =>
    intro l hl
    cases l with
    | nil => simp [listChunks]
    | cons x xs =>
      rw [listChunks, dif_neg (by omega), List.flatten_cons,
        ih ((x :: xs).drop m)
          (by simp only [List.length_drop, List.length_cons] at hl ⊢; omega),
        List.take_append_drop]

theorem findIssuesDesc (master : List JiraIssue) (m : Nat) (hm : 0 < m) :
    ∀ (fuel start : Nat), master.length ≤ start + (fuel + 1) * m →
      findExistingJiraIssues (pagedTracker master m) (fuel + 1) start =
        some (.ok ((listChunks m (master.drop start)).reverse.flatten)) := by
  have onePage : ∀ start : Nat, master.length ≤ start + m →
      (master.drop start).take m = (listChunks m (master.drop start)).reverse.flatten := by
    intro start h
    cases hd : master.drop start with
    | nil => simp [listChunks]
    | cons y ys =>
      have hlen : (master.drop start).length = master.length - start := List.length_drop _ _
      have hdrop : ((y :: ys).drop m) = [] := by
        have : (y :: ys).length ≤ m := by
          rw [← hd, hlen]; omega
        exact List.drop_eq_nil_of_le this
      rw [listChunks, dif_neg (by omega), hdrop]
      simp [listChunks]
  intro fuel
  induction fuel with
  | zero =>
    intro start h
    rw [findExistingJiraIssues]
    simp only [pagedTracker]
    rw [if_neg (by simp), if_neg (by omega)]
    rw [onePage start (by omega)]
  | succ fuel ih =>
    intro start h
    rw [findExistingJiraIssues]
    simp only [pagedTracker]
    by_cases hg : start + m < master.length
    · have hx : (fuel + 1 + 1) * m = (fuel + 1) * m + m := Nat.succ_mul _ _
      rw [if_neg (by simp), if_pos hg, ih (start + m) (by omega)]
      have hd : master.drop start ≠ [] := by
        have : start < master.length := by omega
        simp [List.drop_eq_nil_iff_le]
        omega
      have hstep : listChunks m (master.drop start) =
          (master.drop start).take m :: listChunks m (master.drop (start + m)) := by
        obtain ⟨y, ys, hys⟩ := List.exists_cons_of_ne_nil hd
        rw [hys, listChunks, dif_neg (by omega), ← hys]
        have : (master.drop start).drop m = master.drop (start + m) := by
          rw [List.drop_drop, Nat.add_comm]
        rw [this]
      rw [hstep, List.reverse_cons, List.flatten_append]
      simp
    · rw [if_neg (by simp), if_neg hg, onePage start (by omega)]

/-- Claim C1, amended: for a well-behaved paged tracker the retrieval
returns every record exactly once (the result is a permutation of the
master list and its length equals the declared total), but the pages are
concatenated in descending offset order: the page fetched at the highest
offset comes first and the page at offset 0 comes last
(`issue_list + resp.json()['issues']` puts the recursive result first). -/
theorem c1_pagination_descending (master : List JiraIssue) (m fuel : Nat)
    (hm : 0 < m) (hf : master.length ≤ fuel * m) :
    findExistingJiraIssues (pagedTracker master m) (fuel + 1) 0 =
      some (.ok ((listChunks m master).reverse.flatten)) ∧
    ((listChunks m master).reverse.flatten).length = master.length ∧
    ((listChunks m master).reverse.flatten).Perm master := by
  have hx : (fuel + 1) * m = fuel * m + m := Nat.succ_mul _ _
  have h0 := findIssuesDesc master m hm fuel 0 (by omega)
  rw [List.drop_zero] at h0
  have hj : (listChunks m master).flatten = master :=
    listChunksJoin m hm master.length master le_rfl
  have hperm : ((listChunks m master).reverse.flatten).Perm master := by
    have := joinReversePerm (listChunks m master)
    rwa [hj] at this
  exact ⟨h0, hperm.length_eq, hperm⟩

/-- Claim C1, counterexample to the ascending-order claim: with two
records and page size one, the retrieval returns the offset-1 page
before the offset-0 page. -/
theorem c1_counterexample :
    findExistingJiraIssues (pagedTracker [issueA, issueB] 1) 3 0 =
      some (.ok [issueB, issueA]) ∧
    ([issueB, issueA] : List JiraIssue) ≠ [issueA, issueB] := by
  exact ⟨rfl, by decide⟩

/-- Witness for `c1_pagination_descending` with two records and page
size one. -/
theorem c1_witness :
    0 < 1 ∧ ([issueA, issueB] : List JiraIssue).length ≤ 2 * 1 ∧
    (findExistingJiraIssues (pagedTracker [issueA, issueB] 1) (2 + 1) 0 =
      some (.ok ((listChunks 1 [issueA, issueB]).reverse.flatten)) ∧
    ((listChunks 1 [issueA, issueB]).reverse.flatten).length =
      ([issueA, issueB] : List JiraIssue).length ∧
    ((listChunks 1 [issueA, issueB]).reverse.flatten).Perm [issueA, issueB]) :=
  ⟨by decide, by decide, c1_pagination_descending [issueA, issueB] 1 2 (by decide) (by decide)⟩

/-! ## Claim C3 -/

/-- Claim C3, amended: the throw-location extraction succeeds exactly
when a line exists at index `L + 1` after the last caused-by line, and
then returns that line cut at its first colon; when no such line exists
it raises `IndexError` (modelled as `none`) instead of returning an
empty fingerprint. -/
theorem c3_extraction_cases (s : String) :
    ((firstLineCausedBy s).isSome ↔
      causedSuccIdx (splitlinesPy s.data) < (splitlinesPy s.data).length) ∧
    (∀ fp, firstLineCausedBy s = some fp →
      ∃ l, (splitlinesPy s.data).get? (causedSuccIdx (splitlinesPy s.data)) = some l ∧
        fp = String.mk (partitionColonFst l)) := by
  cases h : (splitlinesPy s.data).get? (causedSuccIdx (splitlinesPy s.data)) with
  | none =>
    have hlen : (splitlinesPy s.data).length ≤ causedSuccIdx (splitlinesPy s.data) :=
      List.get?_eq_none.mp h
    constructor
    · simp only [firstLineCausedBy, h]
      constructor
      · intro hc; simp at hc
      · intro hc; omega
    · intro fp hfp
      simp only [firstLineCausedBy, h] at hfp
      exact Option.noConfusion hfp
  | some l =>
    constructor
    · simp only [firstLineCausedBy, h]
      have : causedSuccIdx (splitlinesPy s.data) < (splitlinesPy s.data).length := by
        by_contra hc
        rw [List.get?_eq_none.mpr (by omega)] at h
        exact Option.noConfusion h
      simp [this]
    · intro fp hfp
      simp only [firstLineCausedBy, h] at hfp
      exact ⟨l, rfl, by rw [← Option.some_inj.mp hfp]⟩

/-- Claim C3, counterexample: on the empty input the extraction raises
`IndexError` (modelled as `none`), not an empty fingerprint. -/
theorem c3_counterexample :
    firstLineCausedBy "" = none ∧ (none : Option String) ≠ some "" :=
  ⟨rfl, by decide⟩

/-- Witness for `c3_extraction_cases` on a stacktrace whose last
caused-by line is followed by a `\tat` line. -/
theorem c3_witness :
    firstLineCausedBy "Caused by: x\n\tat a.b(c:1)\n" = some "\tat a.b(c" ∧
    (∃ l, (splitlinesPy ("Caused by: x\n\tat a.b(c:1)\n" : String).data).get?
        (causedSuccIdx (splitlinesPy ("Caused by: x\n\tat a.b(c:1)\n" : String).data)) =
        some l ∧
      ("\tat a.b(c" : String) = String.mk (partitionColonFst l)) :=
  ⟨by decide, (c3_extraction_cases "Caused by: x\n\tat a.b(c:1)\n").2 "\tat a.b(c" (by decide)⟩

/-! ## Claim C6 -/

theorem dropCiSome :
    ∀ (pat l rest : List Char), dropCi pat l = some rest →
      ∃ mid, l = mid ++ rest ∧ mid.map Char.toLower = pat.map Char.toLower := by
  intro pat
  induction pat with
  | nil =>
    intro l rest h
    simp only [dropCi, Option.some_inj] at h
    exact ⟨[], by simp [h], by simp⟩
  | cons p ps ih =>
    intro l rest h
    cases l with
    | nil => simp [dropCi] at h
    | cons c cs =>
      simp only [dropCi] at h
      by_cases hpc : p.toLower = c.toLower
      · rw [if_pos hpc] at h
        obtain ⟨mid, hcs, hmap⟩ := ih cs rest h
        refine ⟨c :: mid, by simp [hcs], ?_⟩
        simp only [List.map_cons, hmap, hpc.symm]
      · rw [if_neg hpc] at h
        exact Option.noConfusion h

theorem dropCiAppend :
    ∀ (pat mid rest : List Char), mid.map Char.toLower = pat.map Char.toLower →
      dropCi pat (mid ++ rest) = some rest := by
  intro pat
  induction pat with
  | nil =>
    intro mid rest h
    have : mid = [] := by
      cases mid with
      | nil => rfl
      | cons c cs => simp at h
    subst this
    rfl
  | cons p ps ih =>
    intro mid rest h
    cases mid with
    | nil => simp at h
    | cons c cs =>
      simp only [List.map_cons, List.cons.injEq] at h
      simp only [List.cons_append, dropCi]
      rw [if_pos h.1.symm]
      exact ih cs rest h.2

theorem takeWhileAppendOf (p : Char → Bool) :
    ∀ (ws rest : List Char), (∀ c ∈ ws, p c = true) →
      (∀ c, rest.head? = some c → p c = false) →
      (ws ++ rest).takeWhile p = ws ∧ (ws ++ rest).dropWhile p = rest := by
  intro ws
  induction ws with
  | nil =>
    intro rest _ hrest
    cases rest with
    | nil => exact ⟨rfl, rfl⟩
    | cons r rs =>
      have hr := hrest r rfl
      simp [List.takeWhile_cons, List.dropWhile_cons, hr]
  | cons w ws ih =>
    intro rest hws hrest
    have hw := hws w (by simp)
    obtain ⟨h1, h2⟩ := ih rest (fun c hc => hws c (List.mem_cons_of_mem w hc)) hrest
    constructor
    · simp [List.takeWhile_cons, hw, h1]
    · simp [List.dropWhile_cons, hw, h2]

theorem digitNotWs (c : Char) (h : c.isDigit = true) : pyIsWs c = false := by
  have h1 : c ≠ ' ' := fun he => by subst he; exact absurd h (by decide)
  have h2 : c ≠ '\t' := fun he => by subst he; exact absurd h (by decide)
  have h3 : c ≠ '\n' := fun he => by subst he; exact absurd h (by decide)
  have h4 : c ≠ '\r' := fun he => by subst he; exact absurd h (by decide)
  have h5 : c ≠ '\x0b' := fun he => by subst he; exact absurd h (by decide)
  have h6 : c ≠ '\x0c' := fun he => by subst he; exact absurd h (by decide)
  simp [pyIsWs, h1, h2, h3, h4, h5, h6]

theorem countLowerFixed : ("count:".data).map Char.toLower = "count:".data := by decide

theorem tryCountSound (l : List Char) (v : Nat) (h : tryCountTail l = some v) :
    ∃ mid ws ds rest, l = mid ++ (ws ++ (ds ++ rest)) ∧
      mid.map Char.toLower = "count:".data ∧
      ws ≠ [] ∧ (∀ c ∈ ws, pyIsWs c = true) ∧
      ds ≠ [] ∧ (∀ c ∈ ds, c.isDigit = true) ∧ digitsVal ds = v := by
  rw [tryCountTail] at h
  cases hd : dropCi "count:".data l with
  | none => rw [hd] at h; exact Option.noConfusion h
  | some l1 =>
    rw [hd] at h
    simp only at h
    split at h
    · exact Option.noConfusion h
    · rename_i hws
      split at h
      · exact Option.noConfusion h
      · rename_i hds
        obtain ⟨mid, hl, hmid⟩ := dropCiSome _ _ _ hd
        refine ⟨mid, l1.takeWhile pyIsWs, (l1.dropWhile pyIsWs).takeWhile Char.isDigit,
          (l1.dropWhile pyIsWs).dropWhile Char.isDigit, ?_, ?_, hws, ?_, hds, ?_, ?_⟩
        · rw [hl]
          congr 1
          rw [List.takeWhile_append_dropWhile, List.takeWhile_append_dropWhile]
        · rw [hmid, countLowerFixed]
        · intro c hc; exact List.mem_takeWhile_imp hc
        · intro c hc; exact List.mem_takeWhile_imp hc
        · exact Option.some_inj.mp h

theorem tryCountComplete (mid ws ds rest : List Char)
    (hmid : mid.map Char.toLower = "count:".data)
    (hws : ws ≠ []) (hwsp : ∀ c ∈ ws, pyIsWs c = true)
    (hds : ds ≠ []) (hdsp : ∀ c ∈ ds, c.isDigit = true) :
    (tryCountTail (mid ++ (ws ++ (ds ++ rest)))).isSome := by
  rw [tryCountTail]
  rw [dropCiAppend "count:".data mid (ws ++ (ds ++ rest)) (by rw [hmid, countLowerFixed])]
  have hhead : ∀ c, (ds ++ rest).head? = some c → pyIsWs c = false := by
    intro c hc
    cases ds with
    | nil => exact absurd rfl hds
    | cons d ds2 =>
      simp only [List.cons_append, List.head?_cons, Option.some_inj] at hc
      rw [← hc]
      exact digitNotWs d (hdsp d (by simp))
  obtain ⟨htake, hdrop⟩ := takeWhileAppendOf pyIsWs ws (ds ++ rest) hwsp hhead
  simp only [htake, hdrop]
  rw [if_neg hws]
  cases ds with
  | nil => exact absurd rfl hds
  | cons d ds2 =>
    have hd : d.isDigit = true := hdsp d (by simp)
    simp only [List.cons_append, List.takeWhile_cons, hd]
    simp

theorem countSearchSound :
    ∀ (p0 : Nat) (s : List Char) (v : Nat), countSearch s p0 = some v →
      ∃ p, p ≤ p0 ∧ tryCountTail (s.drop p) = some v := by
  intro p0
  induction p0 with
  | zero =>
    intro s v h
    exact ⟨0, le_rfl, by rw [List.drop_zero]; exact h⟩
  | succ p ih =>
    intro s v h
    rw [countSearch, ] at h
    cases ht : tryCountTail (s.drop (p + 1)) with
    | some w =>
      rw [ht] at h
      have h2 : some w = some v := h
      exact ⟨p + 1, le_rfl, by rw [ht]; exact h2⟩
    | none =>
      rw [ht] at h
      have h2 : countSearch s p = some v := h
      obtain ⟨q, hq, hqt⟩ := ih s v h2
      exact ⟨q, Nat.le_succ_of_le hq, hqt⟩

theorem countSearchComplete :
    ∀ (p0 p : Nat) (s : List Char), p ≤ p0 →
      (tryCountTail (s.drop p)).isSome → (countSearch s p0).isSome := by
  intro p0
  induction p0 with
  | zero =>
    intro p s hp h
    have : p = 0 := Nat.le_zero.mp hp
    subst this
    rw [List.drop_zero] at h
    exact h
  | succ p0 ih =>
    intro p s hp h
    rw [countSearch]
    cases ht : tryCountTail (s.drop (p0 + 1)) with
    | some w => simp
    | none =>
      show (countSearch s p0).isSome
      rcases Nat.lt_or_ge p (p0 + 1) with hlt | hge
      · exact ih p s (by omega) h
      · have : p = p0 + 1 := by omega
        subst this
        rw [ht] at h
        exact absurd h (by simp)

theorem takeNoNlOfLeFind :
    ∀ (s : List Char) (p : Nat), p ≤ s.findIdx (fun c => c = '\n') →
      ∀ c ∈ s.take p, c ≠ '\n' := by
  intro s
  induction s with
  | nil => intro p _ c hc; simp at hc
  | cons x xs ih =>
    intro p hp c hc
    cases p with
    | zero => simp at hc
    | succ q =>
      rw [List.findIdx_cons] at hp
      by_cases hx : x = '\n'
      · rw [hx] at hp
        simp at hp
      · simp only [decide_eq_false hx, cond_false] at hp
        simp only [List.take_succ_cons, List.mem_cons] at hc
        rcases hc with hc | hc
        · subst hc; exact hx
        · exact ih q (by omega) c hc

theorem lePrefixFind :
    ∀ (pre tail : List Char), (∀ c ∈ pre, c ≠ '\n') →
      pre.length ≤ (pre ++ tail).findIdx (fun c => c = '\n') := by
  intro pre
  induction pre with
  | nil => intro tail _; simp
  | cons c cs ih =>
    intro tail h
    have hc : c ≠ '\n' := h c (by simp)
    simp only [List.cons_append, List.findIdx_cons, decide_eq_false hc, cond_false,
      List.length_cons]
    have := ih tail (fun d hd => h d (List.mem_cons_of_mem c hd))
    omega

theorem countCaptureSound (s : List Char) (v : Nat) (h : countCapture s = some v) :
    IsCountDecomp s v := by
  obtain ⟨p, hp, htry⟩ := countSearchSound _ s v h
  obtain ⟨mid, ws, ds, rest, hsplit, hmid, hws, hwsp, hds, hdsp, hval⟩ :=
    tryCountSound _ v htry
  refine ⟨s.take p, mid, ws, ds, rest, ?_, ?_, hmid, hws, hwsp, hds, hdsp, hval⟩
  · conv_lhs => rw [← List.take_append_drop p s]
    rw [hsplit]
    simp [List.append_assoc]
  · exact takeNoNlOfLeFind s p hp

theorem countCaptureComplete (s : List Char) (h : ∃ n, IsCountDecomp s n) :
    (countCapture s).isSome := by
  obtain ⟨n, pre, mid, ws, ds, rest, hsplit, hpre, hmid, hws, hwsp, hds, hdsp, _⟩ := h
  have htry := tryCountComplete mid ws ds rest hmid hws hwsp hds hdsp
  have hs : s = pre ++ (mid ++ (ws ++ (ds ++ rest))) := by
    rw [hsplit]; simp [List.append_assoc]
  have hdrop : s.drop pre.length = mid ++ (ws ++ (ds ++ rest)) := by
    rw [hs]; exact List.drop_left _ _
  apply countSearchComplete (s.findIdx (fun c => c = '\n')) pre.length s
  · rw [hs]
    exact lePrefixFind pre _ hpre
  · rw [hdrop]
    exact htry

/-- Claim C6: when the prior annotation matches the count pattern the
new count is the captured value plus one and the match corresponds to a
genuine decomposition (leading newline-free text, `count:` up to case,
whitespace, digits); when the prior annotation is absent, empty or
matches no decomposition the count is one; the output always has the
shape `Count: {n}\nLast: {timestamp}`. -/
theorem c6_occurrence_count (prior : Option String) (now : String) :
    (∀ s v, prior = some s → countCapture s.data = some v →
      IsCountDecomp s.data v ∧
      calculateIssueOccurrenceCount prior now =
        "Count: " ++ toString (v + 1) ++ "\nLast: " ++ now) ∧
    ((prior = none ∨ prior = some "" ∨
      (∀ s, prior = some s → ¬∃ n, IsCountDecomp s.data n)) →
      calculateIssueOccurrenceCount prior now =
        "Count: " ++ toString (1 : Nat) ++ "\nLast: " ++ now) ∧
    (∃ k : Nat, calculateIssueOccurrenceCount prior now =
      "Count: " ++ toString k ++ "\nLast: " ++ now) := by
  refine ⟨?_, ?_, ?_⟩
  · intro s v hs hv
    subst hs
    refine ⟨countCaptureSound s.data v hv, ?_⟩
    have hne : 0 < s.length := by
      by_contra hc
      have hsd : s.data = [] := by
        have : s.length = 0 := by omega
        exact List.length_eq_zero.mp this
      rw [hsd] at hv
      exact Option.noConfusion hv
    simp only [calculateIssueOccurrenceCount, if_pos hne, hv]
  · intro hcase
    rcases hcase with hc | hc | hc
    · subst hc; rfl
    · subst hc; rfl
    · cases prior with
      | none => rfl
      | some s =>
        by_cases hlen : 0 < s.length
        · cases hcc : countCapture s.data with
          | none => simp only [calculateIssueOccurrenceCount, if_pos hlen, hcc]
          | some v =>
            exact absurd ⟨v, countCaptureSound s.data v hcc⟩ (hc s rfl)
        · simp only [calculateIssueOccurrenceCount, if_neg hlen]
  · cases prior with
    | none => exact ⟨1, rfl⟩
    | some s =>
      by_cases hlen : 0 < s.length
      · cases hcc : countCapture s.data with
        | none => exact ⟨1, by simp only [calculateIssueOccurrenceCount, if_pos hlen, hcc]⟩
        | some v =>
          exact ⟨v + 1, by simp only [calculateIssueOccurrenceCount, if_pos hlen, hcc]⟩
      · exact ⟨1, by simp only [calculateIssueOccurrenceCount, if_neg hlen]⟩

/-- Witness for `c6_occurrence_count`: the prior annotation
`Count: 4\nLast: x` yields `Count: 5\nLast: T` and a genuine pattern
decomposition with captured value 4. -/
theorem c6_witness :
    IsCountDecomp ("Count: 4\nLast: x" : String).data 4 ∧
    calculateIssueOccurrenceCount (some "Count: 4\nLast: x") "T" = "Count: 5\nLast: T" := by
  have h := (c6_occurrence_count (some "Count: 4\nLast: x") "T").1 "Count: 4\nLast: x" 4
    rfl (by decide)
  exact ⟨h.1, by rw [h.2]; rfl⟩

/-! ## difflib: bounds of `find_longest_match` and the matched total -/

theorem cellCondFacts (a b : List Char) (blo bhi i j : Nat)
    (h : cellCond a b blo bhi i j = true) :
    blo ≤ j ∧ j < bhi ∧ b.getD j ' ' = a.getD i ' ' ∧
      anchoredChar b (a.getD i ' ') = true := by
  simp only [cellCond, Bool.and_eq_true, decide_eq_true_eq] at h
  exact ⟨h.1.1.1, h.1.1.2, h.1.2, h.2⟩

theorem flmFLeRows (a b : List Char) (alo blo bhi : Nat) :
    ∀ t j, flmF a b alo blo bhi t j ≤ t := by
  intro t
  induction t with
  | zero => intro j; exact le_rfl
  | succ t ih =>
    intro j
    rw [flmF, rowFn]
    split
    · split
      · omega
      · have := ih (j - 1); omega
    · exact Nat.zero_le _

theorem flmFLeCol (a b : List Char) (alo blo bhi : Nat) :
    ∀ t j, flmF a b alo blo bhi t j ≤ j + 1 - blo := by
  intro t
  induction t with
  | zero => intro j; exact Nat.zero_le _
  | succ t ih =>
    intro j
    rw [flmF, rowFn]
    split
    · rename_i hc
      obtain ⟨hb1, hb2, _, _⟩ := cellCondFacts a b blo bhi (alo + t) j hc
      split
      · omega
      · have := ih (j - 1); omega
    · exact Nat.zero_le _

theorem stepCellValid (a b : List Char) (alo ahi blo bhi i : Nat) (f : Nat → Nat)
    (hi1 : alo ≤ i) (hi2 : i < ahi)
    (hf1 : ∀ x, f x ≤ i - alo) (hf2 : ∀ x, f x ≤ x + 1 - blo)
    (j : Nat) (bst : FlmBest)
    (hb : alo ≤ bst.bi ∧ blo ≤ bst.bj ∧ bst.bi + bst.bk ≤ ahi ∧ bst.bj + bst.bk ≤ bhi) :
    alo ≤ (stepCell a b blo bhi i f j bst).bi ∧
    blo ≤ (stepCell a b blo bhi i f j bst).bj ∧
    (stepCell a b blo bhi i f j bst).bi + (stepCell a b blo bhi i f j bst).bk ≤ ahi ∧
    (stepCell a b blo bhi i f j bst).bj + (stepCell a b blo bhi i f j bst).bk ≤ bhi := by
  simp only [stepCell]
  by_cases hc : cellCond a b blo bhi i j = true
  · rw [if_pos hc]
    obtain ⟨hb1, hb2, _, _⟩ := cellCondFacts a b blo bhi i j hc
    set k := (if j = 0 then 0 else f (j - 1)) + 1 with hkdef
    have hk1 : k ≤ i + 1 - alo := by
      rw [hkdef]
      by_cases hj : j = 0
      · rw [if_pos hj]; omega
      · rw [if_neg hj]; have := hf1 (j - 1); omega
    have hk2 : k ≤ j + 1 - blo := by
      rw [hkdef]
      by_cases hj : j = 0
      · rw [if_pos hj]; omega
      · rw [if_neg hj]; have := hf2 (j - 1); omega
    by_cases hu : bst.bk < k
    · rw [if_pos hu]
      refine ⟨?_, ?_, ?_, ?_⟩ <;> dsimp only <;> omega
    · rw [if_neg hu]; exact hb
  · rw [if_neg hc]; exact hb

theorem rowBestGoValid (a b : List Char) (alo ahi blo bhi i : Nat) (f : Nat → Nat)
    (hi1 : alo ≤ i) (hi2 : i < ahi)
    (hf1 : ∀ x, f x ≤ i - alo) (hf2 : ∀ x, f x ≤ x + 1 - blo) :
    ∀ (c j : Nat) (bst : FlmBest),
      (alo ≤ bst.bi ∧ blo ≤ bst.bj ∧ bst.bi + bst.bk ≤ ahi ∧ bst.bj + bst.bk ≤ bhi) →
      (alo ≤ (rowBestGo a b blo bhi i f j c bst).bi ∧
       blo ≤ (rowBestGo a b blo bhi i f j c bst).bj ∧
       (rowBestGo a b blo bhi i f j c bst).bi + (rowBestGo a b blo bhi i f j c bst).bk ≤ ahi ∧
       (rowBestGo a b blo bhi i f j c bst).bj + (rowBestGo a b blo bhi i f j c bst).bk ≤ bhi) := by
  intro c
  induction c with
  | zero => intro j bst hb; exact hb
  | succ c ih =>
    intro j bst hb
    rw [rowBestGo]
    exact ih (j + 1) _ (stepCellValid a b alo ahi blo bhi i f hi1 hi2 hf1 hf2 j bst hb)

theorem flmBestTValid (a b : List Char) (alo ahi blo bhi : Nat)
    (h1 : alo ≤ ahi) (h2 : blo ≤ bhi) :
    ∀ t, t ≤ ahi - alo →
      (alo ≤ (flmBestT a b alo blo bhi t).bi ∧
       blo ≤ (flmBestT a b alo blo bhi t).bj ∧
       (flmBestT a b alo blo bhi t).bi + (flmBestT a b alo blo bhi t).bk ≤ ahi ∧
       (flmBestT a b alo blo bhi t).bj + (flmBestT a b alo blo bhi t).bk ≤ bhi) := by
  intro t
  induction t with
  | zero =>
    intro _
    rw [flmBestT]
    exact ⟨le_rfl, le_rfl, by dsimp only; omega, by dsimp only; omega⟩
  | succ t ih =>
    intro ht
    rw [flmBestT, rowBest]
    exact rowBestGoValid a b alo ahi blo bhi (alo + t) (flmF a b alo blo bhi t)
      (by omega) (by omega)
      (fun x => by have := flmFLeRows a b alo blo bhi t x; omega)
      (fun x => flmFLeCol a b alo blo bhi t x)
      (bhi - blo) blo _ (ih (by omega))

theorem growLeftSpec (p : Nat → Nat → Bool) (alo blo : Nat) :
    ∀ (bi bj bk : Nat),
      (growLeft p alo blo bi bj bk).bi + (growLeft p alo blo bi bj bk).bk = bi + bk ∧
      (growLeft p alo blo bi bj bk).bj + (growLeft p alo blo bi bj bk).bk = bj + bk ∧
      (alo ≤ bi → alo ≤ (growLeft p alo blo bi bj bk).bi) ∧
      (blo ≤ bj → blo ≤ (growLeft p alo blo bi bj bk).bj) ∧
      bk ≤ (growLeft p alo blo bi bj bk).bk := by
  intro bi
  induction bi with
  | zero =>
    intro bj bk
    rw [growLeft]
    exact ⟨rfl, rfl, fun h => by dsimp only; omega, fun h => h, le_rfl⟩
  | succ bi ih =>
    intro bj bk
    rw [growLeft]
    split
    · rename_i hcond
      obtain ⟨hc1, hc2, _⟩ := hcond
      obtain ⟨s1, s2, s3, s4, s5⟩ := ih (bj - 1) (bk + 1)
      refine ⟨by omega, by omega, fun h => s3 (by omega), fun h => s4 (by omega), by omega⟩
    · exact ⟨rfl, rfl, fun h => h, fun h => h, le_rfl⟩

theorem growRightFSpec (p : Nat → Nat → Bool) (ahi bhi bi bj : Nat) :
    ∀ (fuel bk : Nat),
      bk ≤ growRightF p ahi bhi bi bj fuel bk ∧
      (bi + bk ≤ ahi → bi + growRightF p ahi bhi bi bj fuel bk ≤ ahi) ∧
      (bj + bk ≤ bhi → bj + growRightF p ahi bhi bi bj fuel bk ≤ bhi) := by
  intro fuel
  induction fuel with
  | zero => intro bk; exact ⟨le_rfl, fun h => h, fun h => h⟩
  | succ fuel ih =>
    intro bk
    rw [growRightF]
    split
    · rename_i hcond
      obtain ⟨s1, s2, s3⟩ := ih (bk + 1)
      exact ⟨by omega, fun _ => s2 (by omega), fun _ => s3 (by omega)⟩
    · exact ⟨le_rfl, fun h => h, fun h => h⟩

theorem flmValid (a b : List Char) (alo ahi blo bhi : Nat)
    (h1 : alo ≤ ahi) (h2 : blo ≤ bhi) :
    alo ≤ (findLongestMatch a b alo ahi blo bhi).bi ∧
    blo ≤ (findLongestMatch a b alo ahi blo bhi).bj ∧
    (findLongestMatch a b alo ahi blo bhi).bi +
      (findLongestMatch a b alo ahi blo bhi).bk ≤ ahi ∧
    (findLongestMatch a b alo ahi blo bhi).bj +
      (findLongestMatch a b alo ahi blo bhi).bk ≤ bhi := by
  obtain ⟨t1, t2, t3, t4⟩ := flmBestTValid a b alo ahi blo bhi h1 h2 (ahi - alo) le_rfl
  unfold findLongestMatch
  set b0 := flmBestT a b alo blo bhi (ahi - alo) with hb0
  obtain ⟨g1, g2, g3, g4, g5⟩ := growLeftSpec (extNonjunk a b) alo blo b0.bi b0.bj b0.bk
  set b1 := growLeft (extNonjunk a b) alo blo b0.bi b0.bj b0.bk with hb1
  obtain ⟨r1, r2, r3⟩ := growRightFSpec (extNonjunk a b) ahi bhi b1.bi b1.bj
    (ahi - (b1.bi + b1.bk)) b1.bk
  set k2 := growRight (extNonjunk a b) ahi bhi b1.bi b1.bj b1.bk with hk2
  obtain ⟨g1b, g2b, g3b, g4b, g5b⟩ := growLeftSpec (extJunk a b) alo blo b1.bi b1.bj k2
  set b3 := growLeft (extJunk a b) alo blo b1.bi b1.bj k2 with hb3
  obtain ⟨r1b, r2b, r3b⟩ := growRightFSpec (extJunk a b) ahi bhi b3.bi b3.bj
    (ahi - (b3.bi + b3.bk)) b3.bk
  rw [growRight] at hk2
  have hv1 : alo ≤ b1.bi := g3 t1
  have hv2 : blo ≤ b1.bj := g4 t2
  have hv3 : b1.bi + k2 ≤ ahi := by rw [hk2]; exact r2 (by omega)
  have hv4 : b1.bj + k2 ≤ bhi := by rw [hk2]; exact r3 (by omega)
  have hw1 : alo ≤ b3.bi := g3b hv1
  have hw2 : blo ≤ b3.bj := g4b hv2
  have hw3 : b3.bi + b3.bk ≤ ahi := by omega
  have hw4 : b3.bj + b3.bk ≤ bhi := by omega
  refine ⟨hw1, hw2, ?_, ?_⟩
  · show b3.bi + growRight (extJunk a b) ahi bhi b3.bi b3.bj b3.bk ≤ ahi
    rw [growRight]
    exact r2b hw3
  · show b3.bj + growRight (extJunk a b) ahi bhi b3.bi b3.bj b3.bk ≤ bhi
    rw [growRight]
    exact r3b hw4

theorem matchedSizeAuxLe (a b : List Char) :
    ∀ (fuel alo ahi blo bhi : Nat), alo ≤ ahi → blo ≤ bhi →
      matchedSizeAux a b fuel alo ahi blo bhi ≤ ahi - alo ∧
      matchedSizeAux a b fuel alo ahi blo bhi ≤ bhi - blo := by
  intro fuel
  induction fuel with
  | zero => intro alo ahi blo bhi _ _; exact ⟨Nat.zero_le _, Nat.zero_le _⟩
  | succ fuel ih =>
    intro alo ahi blo bhi h1 h2
    obtain ⟨v1, v2, v3, v4⟩ := flmValid a b alo ahi blo bhi h1 h2
    rw [matchedSizeAux]
    set m := findLongestMatch a b alo ahi blo bhi
    split
    · exact ⟨Nat.zero_le _, Nat.zero_le _⟩
    · have hleft : (if alo < m.bi ∧ blo < m.bj then
          matchedSizeAux a b fuel alo m.bi blo m.bj else 0) ≤ m.bi - alo ∧
          (if alo < m.bi ∧ blo < m.bj then
          matchedSizeAux a b fuel alo m.bi blo m.bj else 0) ≤ m.bj - blo := by
        split
        · rename_i hcc
          exact ih alo m.bi blo m.bj (by omega) (by omega)
        · exact ⟨Nat.zero_le _, Nat.zero_le _⟩
      have hright : (if m.bi + m.bk < ahi ∧ m.bj + m.bk < bhi then
          matchedSizeAux a b fuel (m.bi + m.bk) ahi (m.bj + m.bk) bhi else 0) ≤
            ahi - (m.bi + m.bk) ∧
          (if m.bi + m.bk < ahi ∧ m.bj + m.bk < bhi then
          matchedSizeAux a b fuel (m.bi + m.bk) ahi (m.bj + m.bk) bhi else 0) ≤
            bhi - (m.bj + m.bk) := by
        split
        · rename_i hcc
          exact ih (m.bi + m.bk) ahi (m.bj + m.bk) bhi (by omega) (by omega)
        · exact ⟨Nat.zero_le _, Nat.zero_le _⟩
      omega

theorem matchedSizeLe (a b : List Char) :
    matchedSize a b ≤ a.length ∧ matchedSize a b ≤ b.length := by
  have := matchedSizeAuxLe a b a.length 0 a.length 0 b.length
    (Nat.zero_le _) (Nat.zero_le _)
  simpa using this

theorem seqRatioLeRqr (a b : List Char) : seqRatioQ a b ≤ realQuickQ a b := by
  unfold seqRatioQ realQuickQ calcRatioQ
  by_cases hT : a.length + b.length = 0
  · rw [if_pos hT, if_pos hT]
  · rw [if_neg hT, if_neg hT, Rat.mkRat_eq_divInt, Rat.mkRat_eq_divInt]
    have hTpos : (0 : Int) < (a.length + b.length : Nat) := by
      exact_mod_cast Nat.pos_of_ne_zero hT
    rw [Rat.divInt_le_divInt hTpos hTpos]
    have hm := matchedSizeLe a b
    have hn : 2 * matchedSize a b * (a.length + b.length) ≤
        2 * min a.length b.length * (a.length + b.length) := by
      apply Nat.mul_le_mul_right
      have : matchedSize a b ≤ min a.length b.length := le_min hm.1 hm.2
      omega
    exact_mod_cast hn

theorem matchesThrowTrueIff (x y : String) :
    matchesThrowLocation x y = some true ↔
      ∃ u v, firstLineCausedBy x = some u ∧ firstLineCausedBy y = some v ∧ u = v := by
  unfold matchesThrowLocation
  cases hx : firstLineCausedBy x with
  | none => simp [hx]
  | some u =>
    cases hy : firstLineCausedBy y with
    | none => simp [hx, hy]
    | some v => simp [hx, hy]

theorem matchPairUngated (x y : String) : matchPair x y = specMatchUngated x y := by
  unfold matchPair specMatchUngated gatedRatioQ
  by_cases hg : mkRat 3 5 < realQuickQ x.data y.data
  · rw [if_pos hg]
  · rw [if_neg hg]
    have hle : seqRatioQ x.data y.data ≤ mkRat 3 5 :=
      le_trans (seqRatioLeRqr _ _) (not_lt.mp hg)
    have h1 : ¬ mkRat 19 20 < (0 : ℚ) := by decide
    have h2 : ¬ mkRat 19 20 < seqRatioQ x.data y.data := by
      have h35 : (mkRat 3 5 : ℚ) < mkRat 19 20 := by decide
      exact not_lt.mpr (le_of_lt (lt_of_le_of_lt hle h35))
    rw [if_neg h1, if_neg h2]

/-! ## Claims C10 and C2 -/

/-- Claim C10: the quick-ratio pre-filter never changes the decision:
the gated matcher equals the spec's ungated matcher, because the quick
estimate bounds the exact ratio from above and the gate threshold 0.6
lies below the accept threshold 0.95. -/
theorem c10_gate_refinement (x y : String) : matchPair x y = specMatchUngated x y :=
  matchPairUngated x y

/-- Claim C2: the matcher accepts exactly when the exact ratio exceeds
0.95 and both throw-location fingerprints exist and are equal; and a
quick estimate of at most 0.6 always yields rejection (ratio taken as
zero). -/
theorem c2_match_iff (x y : String) :
    (matchPair x y = some true ↔
      (mkRat 19 20 < seqRatioQ x.data y.data ∧
        ∃ u v, firstLineCausedBy x = some u ∧ firstLineCausedBy y = some v ∧ u = v)) ∧
    (realQuickQ x.data y.data ≤ mkRat 3 5 → matchPair x y = some false) := by
  constructor
  · rw [matchPairUngated]
    unfold specMatchUngated
    by_cases hr : mkRat 19 20 < seqRatioQ x.data y.data
    · rw [if_pos hr]
      rw [matchesThrowTrueIff]
      constructor
      · intro h; exact ⟨hr, h⟩
      · intro h; exact h.2
    · rw [if_neg hr]
      constructor
      · intro h; exact absurd h (by simp)
      · intro h; exact absurd h.1 hr
  · intro hq
    simp only [matchPair, gatedRatioQ, if_neg (not_lt.mpr hq)]
    rw [if_neg (by decide : ¬ mkRat 19 20 < (0 : ℚ))]

/-- Witness for `c2_match_iff`: a pair whose quick estimate is below the
gate, with the matcher rejecting. -/
theorem c2_witness :
    realQuickQ ("x" : String).data ("yyyyyyy" : String).data ≤ mkRat 3 5 ∧
    matchPair "x" "yyyyyyy" = some false :=
  ⟨by decide, (c2_match_iff "x" "yyyyyyy").2 (by decide)⟩

/-! ## difflib: the self-comparison is fully matched -/

theorem cellDiagColOfCell (a : List Char) (blo bhi i j : Nat)
    (h : cellCond a a blo bhi i j = true) :
    cellCond a a blo bhi j j = true := by
  obtain ⟨h1, h2, h3, h4⟩ := cellCondFacts a a blo bhi i j h
  simp only [cellCond, Bool.and_eq_true, decide_eq_true_eq]
  exact ⟨⟨⟨h1, h2⟩, trivial⟩, by rw [h3]; exact h4⟩

theorem cellDiagRowOfCell (a : List Char) (blo bhi i j : Nat)
    (h : cellCond a a blo bhi i j = true) (hi1 : blo ≤ i) (hi2 : i < bhi) :
    cellCond a a blo bhi i i = true := by
  obtain ⟨_, _, _, h4⟩ := cellCondFacts a a blo bhi i j h
  simp only [cellCond, Bool.and_eq_true, decide_eq_true_eq]
  exact ⟨⟨⟨hi1, hi2⟩, trivial⟩, h4⟩

theorem diagRunZeroOfLt (a : List Char) (blo bhi : Nat) :
    ∀ j, j < blo → diagRun a blo bhi j = 0 := by
  intro j hj
  have hcell : ¬ cellCond a a blo bhi j j = true := by
    intro h
    obtain ⟨h1, _, _, _⟩ := cellCondFacts a a blo bhi j j h
    omega
  cases j with
  | zero => rw [diagRun, if_neg hcell]
  | succ j => rw [diagRun, if_neg hcell]

theorem vLeDiagCol (a : List Char) (alo bhi : Nat) :
    ∀ t j, flmF a a alo alo bhi t j ≤ diagRun a alo bhi j := by
  intro t
  induction t with
  | zero => intro j; exact Nat.zero_le _
  | succ t ih =>
    intro j
    rw [flmF, rowFn]
    by_cases hc : cellCond a a alo bhi (alo + t) j = true
    · rw [if_pos hc]
      have hdiag := cellDiagColOfCell a alo bhi (alo + t) j hc
      cases j with
      | zero => rw [diagRun, if_pos hdiag, if_pos rfl]
      | succ j2 =>
        rw [diagRun, if_pos hdiag, if_neg (Nat.succ_ne_zero j2)]
        simp only [Nat.add_sub_cancel]
        have := ih j2
        omega
    · rw [if_neg hc]; exact Nat.zero_le _

theorem vLeDiagRow (a : List Char) (alo bhi : Nat) :
    ∀ t j, alo + t < bhi →
      flmF a a alo alo bhi (t + 1) j ≤ diagRun a alo bhi (alo + t) := by
  intro t
  induction t with
  | zero =>
    intro j hrow
    rw [flmF, rowFn]
    by_cases hc : cellCond a a alo bhi (alo + 0) j = true
    · rw [if_pos hc]
      have hdiag := cellDiagRowOfCell a alo bhi (alo + 0) j hc (by omega) hrow
      have hval : (if j = 0 then 0 else flmF a a alo alo bhi 0 (j - 1)) = 0 := by
        split <;> rfl
      rw [hval]
      cases halo : alo + 0 with
      | zero => rw [halo] at hdiag; rw [diagRun, if_pos hdiag]
      | succ a2 => rw [halo] at hdiag; rw [diagRun, if_pos hdiag]; omega
    · rw [if_neg hc]; exact Nat.zero_le _
  | succ t ih =>
    intro j hrow
    rw [flmF, rowFn]
    by_cases hc : cellCond a a alo bhi (alo + (t + 1)) j = true
    · rw [if_pos hc]
      have hdiag := cellDiagRowOfCell a alo bhi (alo + (t + 1)) j hc (by omega) hrow
      have hup : (if j = 0 then 0 else flmF a a alo alo bhi (t + 1) (j - 1)) ≤
          diagRun a alo bhi (alo + t) := by
        split
        · exact Nat.zero_le _
        · exact ih (j - 1) (by omega)
      have hstep : alo + (t + 1) = (alo + t) + 1 := by omega
      rw [hstep] at hdiag ⊢
      rw [diagRun, if_pos hdiag]
      omega
    · rw [if_neg hc]; exact Nat.zero_le _

theorem fDiagEq (a : List Char) (alo bhi : Nat) :
    ∀ t, flmF a a alo alo bhi (t + 1) (alo + t) = diagRun a alo bhi (alo + t) := by
  intro t
  induction t with
  | zero =>
    rw [flmF, rowFn]
    have hval : (if alo + 0 = 0 then 0 else flmF a a alo alo bhi 0 (alo + 0 - 1)) = 0 := by
      split <;> rfl
    by_cases hc : cellCond a a alo bhi (alo + 0) (alo + 0) = true
    · rw [if_pos hc, hval]
      cases halo : alo + 0 with
      | zero => rw [halo] at hc; rw [diagRun, if_pos hc]
      | succ a2 =>
        rw [halo] at hc
        rw [diagRun, if_pos hc, diagRunZeroOfLt a alo bhi a2 (by omega)]
    · rw [if_neg hc]
      cases halo : alo + 0 with
      | zero => rw [halo] at hc; rw [diagRun, if_neg hc]
      | succ a2 => rw [halo] at hc; rw [diagRun, if_neg hc]
  | succ t ih =>
    rw [flmF, rowFn]
    have hne : ¬ (alo + (t + 1) = 0) := by omega
    have hstep : alo + (t + 1) = (alo + t) + 1 := by omega
    by_cases hc : cellCond a a alo bhi (alo + (t + 1)) (alo + (t + 1)) = true
    · rw [if_pos hc, if_neg hne]
      have hsub : alo + (t + 1) - 1 = alo + t := by omega
      rw [hsub, ih]
      rw [hstep] at hc ⊢
      rw [diagRun, if_pos hc]
    · rw [if_neg hc]
      rw [hstep] at hc ⊢
      rw [diagRun, if_neg hc]

theorem diagRunLeMax (a : List Char) (alo bhi : Nat) :
    ∀ t j, alo ≤ j → j < alo + t → diagRun a alo bhi j ≤ maxDiag a alo bhi t := by
  intro t
  induction t with
  | zero => intro j h1 h2; omega
  | succ t ih =>
    intro j h1 h2
    rw [maxDiag]
    rcases Nat.lt_or_ge j (alo + t) with hlt | hge
    · exact le_trans (ih j h1 hlt) (le_max_left _ _)
    · have : j = alo + t := by omega
      subst this
      exact le_max_right _ _

theorem rowBestGoAppend (a b : List Char) (blo bhi i : Nat) (f : Nat → Nat) :
    ∀ (c1 c2 j : Nat) (bst : FlmBest),
      rowBestGo a b blo bhi i f j (c1 + c2) bst =
        rowBestGo a b blo bhi i f (j + c1) c2 (rowBestGo a b blo bhi i f j c1 bst) := by
  intro c1
  induction c1 with
  | zero =>
    intro c2 j bst
    simp only [Nat.zero_add, Nat.add_zero]
    rfl
  | succ c1 ih =>
    intro c2 j bst
    have h1 : c1 + 1 + c2 = (c1 + c2) + 1 := by omega
    rw [h1, rowBestGo, ih c2 (j + 1) (stepCell a b blo bhi i f j bst)]
    have h2 : j + 1 + c1 = j + (c1 + 1) := by omega
    rw [h2]
    congr 1

theorem rowBestGoNoUpdate (a b : List Char) (blo bhi i : Nat) (f : Nat → Nat) :
    ∀ (c j : Nat) (bst : FlmBest),
      (∀ x, j ≤ x → x < j + c → cellCond a b blo bhi i x = true →
        (if x = 0 then 0 else f (x - 1)) + 1 ≤ bst.bk) →
      rowBestGo a b blo bhi i f j c bst = bst := by
  intro c
  induction c with
  | zero => intro j bst _; rfl
  | succ c ih =>
    intro j bst h
    rw [rowBestGo]
    have hstep : stepCell a b blo bhi i f j bst = bst := by
      simp only [stepCell]
      by_cases hc : cellCond a b blo bhi i j = true
      · rw [if_pos hc]
        have := h j le_rfl (by omega) hc
        rw [if_neg (by omega)]
      · rw [if_neg hc]
    rw [hstep]
    exact ih (j + 1) bst (fun x h1 h2 hc => h x (by omega) (by omega) hc)

theorem rowBestDiagStep (a : List Char) (alo bhi : Nat) (t : Nat)
    (hrow : alo + t < bhi) (bst : FlmBest)
    (hdiag : bst.bi = bst.bj) (hbk : bst.bk = maxDiag a alo bhi t) :
    (rowBest a a alo bhi (alo + t) (flmF a a alo alo bhi t) bst).bi =
      (rowBest a a alo bhi (alo + t) (flmF a a alo alo bhi t) bst).bj ∧
    (rowBest a a alo bhi (alo + t) (flmF a a alo alo bhi t) bst).bk =
      maxDiag a alo bhi (t + 1) ∧
    (rowBest a a alo bhi (alo + t) (flmF a a alo alo bhi t) bst = bst ∨
      bst.bk < (rowBest a a alo bhi (alo + t) (flmF a a alo alo bhi t) bst).bk) := by
  have hsplit : bhi - alo = t + (1 + (bhi - (alo + t) - 1)) := by omega
  have hpart1 : rowBestGo a a alo bhi (alo + t) (flmF a a alo alo bhi t) alo t bst = bst := by
    apply rowBestGoNoUpdate
    intro x hx1 hx2 hcell
    have hval : (if x = 0 then 0 else flmF a a alo alo bhi t (x - 1)) + 1 =
        flmF a a alo alo bhi (t + 1) x := by
      rw [flmF, rowFn, if_pos hcell]
    rw [hval, hbk]
    have h1 := vLeDiagCol a alo bhi (t + 1) x
    have h2 : diagRun a alo bhi x ≤ maxDiag a alo bhi t := by
      obtain ⟨hb1, _, _, _⟩ := cellCondFacts _ _ _ _ _ _ hcell
      exact diagRunLeMax a alo bhi t x hb1 (by omega)
    omega
  have hs : (stepCell a a alo bhi (alo + t) (flmF a a alo alo bhi t) (alo + t) bst).bi =
        (stepCell a a alo bhi (alo + t) (flmF a a alo alo bhi t) (alo + t) bst).bj ∧
      (stepCell a a alo bhi (alo + t) (flmF a a alo alo bhi t) (alo + t) bst).bk =
        max (maxDiag a alo bhi t) (diagRun a alo bhi (alo + t)) ∧
      (stepCell a a alo bhi (alo + t) (flmF a a alo alo bhi t) (alo + t) bst = bst ∨
        bst.bk < (stepCell a a alo bhi (alo + t) (flmF a a alo alo bhi t) (alo + t) bst).bk) := by
    simp only [stepCell]
    by_cases hc : cellCond a a alo bhi (alo + t) (alo + t) = true
    · rw [if_pos hc]
      have hk : (if alo + t = 0 then 0 else flmF a a alo alo bhi t (alo + t - 1)) + 1 =
          diagRun a alo bhi (alo + t) := by
        have hd := fDiagEq a alo bhi t
        rw [flmF, rowFn, if_pos hc] at hd
        exact hd
      rw [hk]
      by_cases hu : bst.bk < diagRun a alo bhi (alo + t)
      · rw [if_pos hu]
        refine ⟨rfl, ?_, Or.inr ?_⟩
        · dsimp only
          exact (Nat.max_eq_right (by omega)).symm
        · dsimp only
          exact hu
      · rw [if_neg hu]
        refine ⟨hdiag, ?_, Or.inl rfl⟩
        rw [hbk]
        exact (Nat.max_eq_left (by omega)).symm
    · rw [if_neg hc]
      have hzero : diagRun a alo bhi (alo + t) = 0 := by
        cases h2 : alo + t with
        | zero => rw [h2] at hc; rw [diagRun, if_neg hc]
        | succ v => rw [h2] at hc; rw [diagRun, if_neg hc]
      exact ⟨hdiag, by rw [hzero, Nat.max_zero, hbk], Or.inl rfl⟩
  have hpart3 : ∀ bst2 : FlmBest,
      diagRun a alo bhi (alo + t) ≤ bst2.bk →
      rowBestGo a a alo bhi (alo + t) (flmF a a alo alo bhi t) (alo + t + 1)
        (bhi - (alo + t) - 1) bst2 = bst2 := by
    intro bst2 hb2
    apply rowBestGoNoUpdate
    intro x hx1 hx2 hcell
    have hval : (if x = 0 then 0 else flmF a a alo alo bhi t (x - 1)) + 1 =
        flmF a a alo alo bhi (t + 1) x := by
      rw [flmF, rowFn, if_pos hcell]
    rw [hval]
    have h1 := vLeDiagRow a alo bhi t x hrow
    omega
  have hone : rowBestGo a a alo bhi (alo + t) (flmF a a alo alo bhi t) (alo + t) 1 bst =
      stepCell a a alo bhi (alo + t) (flmF a a alo alo bhi t) (alo + t) bst := rfl
  rw [rowBest, hsplit, rowBestGoAppend, hpart1, rowBestGoAppend, hone,
    hpart3 _ (by rw [hs.2.1]; exact le_max_right _ _)]
  exact ⟨hs.1, by rw [maxDiag]; exact hs.2.1, hs.2.2⟩

theorem flmBestTDiag (a : List Char) (alo bhi : Nat) :
    ∀ t, t ≤ bhi - alo →
      ((flmBestT a a alo alo bhi t).bi = (flmBestT a a alo alo bhi t).bj ∧
       (flmBestT a a alo alo bhi t).bk = maxDiag a alo bhi t ∧
       ((flmBestT a a alo alo bhi t).bk = 0 →
         flmBestT a a alo alo bhi t = ⟨alo, alo, 0⟩)) := by
  intro t
  induction t with
  | zero => intro _; rw [flmBestT, maxDiag]; exact ⟨rfl, rfl, fun _ => rfl⟩
  | succ t ih =>
    intro ht
    obtain ⟨ih1, ih2, ih3⟩ := ih (by omega)
    rw [flmBestT]
    obtain ⟨r1, r2, r3⟩ := rowBestDiagStep a alo bhi t (by omega) _ ih1 ih2
    refine ⟨r1, r2, ?_⟩
    intro hzero
    rcases r3 with heq | hlt
    · rw [heq]
      rw [heq] at hzero
      exact ih3 hzero
    · omega

theorem growLeftDiagPres (p : Nat → Nat → Bool) (alo : Nat) :
    ∀ (bi bk : Nat),
      (growLeft p alo alo bi bi bk).bi = (growLeft p alo alo bi bi bk).bj := by
  intro bi
  induction bi with
  | zero => intro bk; rw [growLeft]
  | succ bi ih =>
    intro bk
    rw [growLeft]
    split
    · simp only [Nat.add_sub_cancel]
      exact ih (bk + 1)
    · rfl

theorem growLeftAtFloor (p : Nat → Nat → Bool) (alo blo bj bk : Nat) :
    growLeft p alo blo alo bj bk = ⟨alo, bj, bk⟩ := by
  cases alo with
  | zero => rw [growLeft]
  | succ v =>
    rw [growLeft]
    rw [if_neg (by intro hcon; exact absurd hcon.1 (by omega))]

theorem flmSelfEmpty (a : List Char) (alo ahi : Nat) (h : ahi ≤ alo) :
    (findLongestMatch a a alo ahi alo ahi).bk = 0 := by
  unfold findLongestMatch
  have ht : ahi - alo = 0 := by omega
  rw [ht, flmBestT]
  dsimp only
  rw [growLeftAtFloor]
  dsimp only
  have hg : growRight (extNonjunk a a) ahi ahi alo alo 0 = 0 := by
    rw [growRight]
    have : ahi - (alo + 0) = 0 := by omega
    rw [this, growRightF]
  rw [hg, growLeftAtFloor]
  dsimp only
  rw [growRight]
  have : ahi - (alo + 0) = 0 := by omega
  rw [this, growRightF]

theorem growRightFOne (p : Nat → Nat → Bool) (ahi bhi bi bj w : Nat)
    (h1 : bi < ahi) (h2 : bj < bhi) (h3 : p bi bj = true) :
    1 ≤ growRightF p ahi bhi bi bj (w + 1) 0 := by
  rw [growRightF]
  rw [if_pos ⟨by omega, by omega, by simpa using h3⟩]
  exact (growRightFSpec p ahi bhi bi bj w 1).1

theorem flmSelfDiag (a : List Char) (alo ahi : Nat) (h : alo < ahi) :
    (findLongestMatch a a alo ahi alo ahi).bi = (findLongestMatch a a alo ahi alo ahi).bj ∧
    1 ≤ (findLongestMatch a a alo ahi alo ahi).bk := by
  obtain ⟨d1, d2, d3⟩ := flmBestTDiag a alo ahi (ahi - alo) le_rfl
  unfold findLongestMatch
  set b0 := flmBestT a a alo alo ahi (ahi - alo) with hb0def
  have hb1diag : (growLeft (extNonjunk a a) alo alo b0.bi b0.bj b0.bk).bi =
      (growLeft (extNonjunk a a) alo alo b0.bi b0.bj b0.bk).bj := by
    rw [← d1]
    exact growLeftDiagPres (extNonjunk a a) alo b0.bi b0.bk
  set b1 := growLeft (extNonjunk a a) alo alo b0.bi b0.bj b0.bk with hb1def
  set k2 := growRight (extNonjunk a a) ahi ahi b1.bi b1.bj b1.bk with hk2def
  have hb3diag : (growLeft (extJunk a a) alo alo b1.bi b1.bj k2).bi =
      (growLeft (extJunk a a) alo alo b1.bi b1.bj k2).bj := by
    rw [← hb1diag]
    exact growLeftDiagPres (extJunk a a) alo b1.bi k2
  set b3 := growLeft (extJunk a a) alo alo b1.bi b1.bj k2 with hb3def
  refine ⟨hb3diag, ?_⟩
  show 1 ≤ growRight (extJunk a a) ahi ahi b3.bi b3.bj b3.bk
  by_cases hz : b0.bk = 0
  · have hb0 : b0 = ⟨alo, alo, 0⟩ := d3 hz
    have e1 : b1 = ⟨alo, alo, 0⟩ := by
      rw [hb1def, hb0, growLeftAtFloor]
    obtain ⟨w, hw⟩ : ∃ w, ahi - (alo + 0) = w + 1 := ⟨ahi - alo - 1, by omega⟩
    by_cases hj : pyIsJunk (a.getD alo ' ') = true
    · have hk2 : k2 = 0 := by
        rw [hk2def, e1]
        dsimp only
        rw [growRight]
        have hz2 : ahi - (alo + 0) = w + 1 := hw
        rw [hz2, growRightF]
        rw [if_neg (by
          intro hcon
          have hcc := hcon.2.2
          simp only [extNonjunk, Nat.add_zero, Bool.and_eq_true,
            Bool.not_eq_true'] at hcc
          rw [hj] at hcc
          exact Bool.true_eq_false.mp hcc.1)]
      have e3 : b3 = ⟨alo, alo, 0⟩ := by
        rw [hb3def, e1, hk2]
        dsimp only
        exact growLeftAtFloor _ _ _ _ _
      rw [e3]
      dsimp only
      rw [growRight]
      have hwz : ahi - (alo + 0) = w + 1 := hw
      rw [hwz]
      apply growRightFOne
      · omega
      · omega
      · simp only [extJunk, Nat.add_zero, hj, Bool.true_and, decide_eq_true_eq]
    · have hk2 : 1 ≤ k2 := by
        rw [hk2def, e1]
        dsimp only
        rw [growRight, hw]
        apply growRightFOne
        · omega
        · omega
        · simp [extNonjunk, pyIsJunk] at hj ⊢
          exact hj
      have h3 : k2 ≤ b3.bk := by
        rw [hb3def]
        exact (growLeftSpec (extJunk a a) alo alo b1.bi b1.bj k2).2.2.2.2
      have hge := (growRightFSpec (extJunk a a) ahi ahi b3.bi b3.bj
        (ahi - (b3.bi + b3.bk)) b3.bk).1
      rw [growRight]
      omega
  · have h1 : b0.bk ≤ b1.bk := by
      rw [hb1def]
      exact (growLeftSpec (extNonjunk a a) alo alo b0.bi b0.bj b0.bk).2.2.2.2
    have h2 : b1.bk ≤ k2 := by
      rw [hk2def, growRight]
      exact (growRightFSpec (extNonjunk a a) ahi ahi b1.bi b1.bj
        (ahi - (b1.bi + b1.bk)) b1.bk).1
    have h3 : k2 ≤ b3.bk := by
      rw [hb3def]
      exact (growLeftSpec (extJunk a a) alo alo b1.bi b1.bj k2).2.2.2.2
    have h4 : b3.bk ≤ growRight (extJunk a a) ahi ahi b3.bi b3.bj b3.bk := by
      rw [growRight]
      exact (growRightFSpec (extJunk a a) ahi ahi b3.bi b3.bj
        (ahi - (b3.bi + b3.bk)) b3.bk).1
    omega

theorem msAuxSelf (a : List Char) :
    ∀ (fuel alo ahi : Nat), ahi - alo ≤ fuel →
      matchedSizeAux a a fuel alo ahi alo ahi = ahi - alo := by
  intro fuel
  induction fuel with
  | zero => intro alo ahi h; rw [matchedSizeAux]; omega
  | succ fuel ih =>
    intro alo ahi h
    by_cases halo : alo < ahi
    · obtain ⟨hdiag, hk⟩ := flmSelfDiag a alo ahi halo
      obtain ⟨v1, v2, v3, v4⟩ := flmValid a a alo ahi alo ahi (by omega) (by omega)
      rw [matchedSizeAux]
      set m := findLongestMatch a a alo ahi alo ahi
      rw [if_neg (by omega), ← hdiag]
      have hleft : (if alo < m.bi ∧ alo < m.bi then
          matchedSizeAux a a fuel alo m.bi alo m.bi else 0) = m.bi - alo := by
        by_cases hcc : alo < m.bi
        · rw [if_pos ⟨hcc, hcc⟩]
          exact ih alo m.bi (by omega)
        · rw [if_neg (by omega)]
          omega
      have hright : (if m.bi + m.bk < ahi ∧ m.bi + m.bk < ahi then
          matchedSizeAux a a fuel (m.bi + m.bk) ahi (m.bi + m.bk) ahi else 0) =
            ahi - (m.bi + m.bk) := by
        by_cases hcc : m.bi + m.bk < ahi
        · rw [if_pos ⟨hcc, hcc⟩]
          exact ih (m.bi + m.bk) ahi (by omega)
        · rw [if_neg (by omega)]
          omega
      rw [hleft, hright]
      omega
    · rw [matchedSizeAux, if_pos (flmSelfEmpty a alo ahi (by omega))]
      omega

theorem matchedSizeSelf (a : List Char) : matchedSize a a = a.length := by
  have := msAuxSelf a a.length 0 a.length (by omega)
  simpa using this

theorem calcRatioHalf (n : Nat) : calcRatioQ n (n + n) = 1 := by
  unfold calcRatioQ
  by_cases hn : n + n = 0
  · rw [if_pos hn]
  · rw [if_neg hn, Rat.mkRat_eq_divInt]
    have h2 : (2 * (n : Int)) = ((n + n : Nat) : Int) := by push_cast; ring
    rw [h2]
    exact Rat.divInt_self' (by exact_mod_cast hn)

theorem seqRatioSelf (a : List Char) : seqRatioQ a a = 1 := by
  unfold seqRatioQ
  rw [matchedSizeSelf]
  exact calcRatioHalf a.length

theorem realQuickSelf (a : List Char) : realQuickQ a a = 1 := by
  unfold realQuickQ
  rw [Nat.min_self]
  exact calcRatioHalf a.length

/-- Claim C7 (amended): for every printed stacktrace, the exact
similarity ratio of the string with itself is 1, and whenever the
throw-location extraction succeeds on it, the self-match of the
per-candidate similarity test is `true`.  (The unamended claim fails
because the extraction can raise `IndexError`, which the test
propagates instead of returning `true`; see `c7_counterexample`.) -/
theorem c7_self_match (x : String) (h : (firstLineCausedBy x).isSome) :
    seqRatioQ x.data x.data = 1 ∧ matchPair x x = some true := by
  have hr : seqRatioQ x.data x.data = 1 := seqRatioSelf x.data
  refine ⟨hr, ?_⟩
  obtain ⟨u, hu⟩ := Option.isSome_iff_exists.mp h
  have hg : gatedRatioQ x x = 1 := by
    unfold gatedRatioQ
    rw [realQuickSelf, if_pos (by decide), hr]
  unfold matchPair
  rw [hg, if_pos (by decide)]
  unfold matchesThrowLocation
  rw [hu]
  simp

/-- Counterexample to claim C7 as stated: the printed stacktrace of a
report with one frame and no stack lines is a single `Caused by:` line;
on it the throw-location extraction raises `IndexError`, so the
self-match is an error, not `true`. -/
theorem c7_counterexample :
    matchPair (getStacktraceFromMessage reportHeaderOnly)
        (getStacktraceFromMessage reportHeaderOnly) = none ∧
      (none : Option Bool) ≠ some true := by
  constructor
  · decide
  · decide

/-- Witness for `c7_self_match` at a concrete stacktrace whose
throw-location extraction succeeds. -/
theorem c7_witness :
    (firstLineCausedBy goodTrace).isSome ∧
      (seqRatioQ goodTrace.data goodTrace.data = 1 ∧
        matchPair goodTrace goodTrace = some true) :=
  ⟨by decide, c7_self_match goodTrace (by decide)⟩

/-- Claim C8 (amended): the ingredients of the similarity test are
symmetric — the quick estimate is symmetric in its two arguments, and
the throw-location comparison is symmetric — and whenever the exact
ratios of the two argument orders agree, the whole per-candidate test
is symmetric.  (The unamended claim fails because the exact difflib
ratio itself depends on argument order; see `c8_counterexample`.) -/
theorem c8_symmetric_components (x y : String)
    (h : seqRatioQ x.data y.data = seqRatioQ y.data x.data) :
    realQuickQ x.data y.data = realQuickQ y.data x.data ∧
      matchesThrowLocation x y = matchesThrowLocation y x ∧
      matchPair x y = matchPair y x := by
  have hq : realQuickQ x.data y.data = realQuickQ y.data x.data := by
    unfold realQuickQ
    rw [Nat.min_comm, Nat.add_comm]
  have hm : matchesThrowLocation x y = matchesThrowLocation y x := by
    unfold matchesThrowLocation
    cases hx : firstLineCausedBy x <;> cases hy : firstLineCausedBy y <;>
      simp [eq_comm]
  refine ⟨hq, hm, ?_⟩
  unfold matchPair gatedRatioQ
  rw [hq, h, hm]

/-- Counterexample to claim C8 as stated: a concrete pair of printed
stacktraces with equal throw-location fingerprints on which the match
is `true` in one argument order and `false` in the other, because
difflib's exact ratio is not symmetric. -/
theorem c8_counterexample :
    matchPair "Caused by: e\nFFFFFF:qw" "Caused by: e\nFFFFFF:wqvw" = some true ∧
      matchPair "Caused by: e\nFFFFFF:wqvw" "Caused by: e\nFFFFFF:qw" = some false := by
  constructor
  · decide
  · decide

/-- Witness for `c8_symmetric_components` at a concrete pair whose
exact ratios agree in both argument orders. -/
theorem c8_witness :
    seqRatioQ "xy".data "yx".data = seqRatioQ "yx".data "xy".data ∧
      (realQuickQ "xy".data "yx".data = realQuickQ "yx".data "xy".data ∧
        matchesThrowLocation "xy" "yx" = matchesThrowLocation "yx" "xy" ∧
        matchPair "xy" "yx" = matchPair "yx" "xy") :=
  ⟨by decide, c8_symmetric_components "xy" "yx" (by decide)⟩
